import Mathlib

/-!
Verification of the `void-template` server-side DOM library (src/index.js).

Strings are modelled as `List Char` (JS strings iterated by code point, as the
source's `u`-flagged regexes and `for ... of` loops do; every character the
library accepts and stores is a Unicode scalar value, so `Char` is adequate).
The mutable object graph is modelled as a heap: a list of element records
indexed by allocation order, with all mutating operations written as explicit
state-passing functions translated from the source.
-/

namespace VoidTemplate

/-- Shorthand turning a Lean string literal into the `List Char` string model. -/
def str (s : String) : List Char := s.data

/-- Character class of the source's text regex, exactly as written there:
`[\u{9}\u{a}\u{d}\u{20}-\u{d7ff}\u{e000}\u{fffd}\u{10000}-\u{10ffff}]`.
Note that `\u{e000}` and `\u{fffd}` appear as two individual characters in the
class, not as a range. -/
def textChar (c : Char) : Bool :=
  c.toNat = 0x9 || c.toNat = 0xA || c.toNat = 0xD ||
  (0x20 ≤ c.toNat && c.toNat ≤ 0xD7FF) ||
  c.toNat = 0xE000 || c.toNat = 0xFFFD ||
  (0x10000 ≤ c.toNat && c.toNat ≤ 0x10FFFF)

/-- `Element.validateText`: the whole string must consist of `textChar`s. -/
def validateText (s : List Char) : Bool := s.all textChar

/-- Modelled from the spec: the Text grammar's character set as the spec states
it, with `U+E000`–`U+FFFD` a full range (the spec's words; the source regex, as
embedded in `textChar`, lists only the two endpoint characters). -/
def specTextChar (c : Char) : Bool :=
  c.toNat = 0x9 || c.toNat = 0xA || c.toNat = 0xD ||
  (0x20 ≤ c.toNat && c.toNat ≤ 0xD7FF) ||
  (0xE000 ≤ c.toNat && c.toNat ≤ 0xFFFD) ||
  (0x10000 ≤ c.toNat && c.toNat ≤ 0x10FFFF)

/-- First-character class of the Name-Token regex: `[_A-Za-z]`. -/
def nameStart (c : Char) : Bool :=
  c = '_' || ('A' ≤ c && c ≤ 'Z') || ('a' ≤ c && c ≤ 'z')

/-- Subsequent-character class of the Name-Token regex: `[-_.A-Za-z0-9]`. -/
def nameRest (c : Char) : Bool :=
  c = '-' || c = '_' || c = '.' || ('A' ≤ c && c ≤ 'Z') ||
  ('a' ≤ c && c ≤ 'z') || ('0' ≤ c && c ≤ '9')

/-- One colon-free name component: `[_A-Za-z][-_.A-Za-z0-9]*`. -/
def ncname : List Char → Bool
  | [] => false
  | c :: cs => nameStart c && cs.all nameRest

/-- `Element.validateToken`: the anchored regex
`^[_A-Za-z][-_.A-Za-z0-9]*(:[_A-Za-z][-_.A-Za-z0-9]*)?$`, i.e. a name
component optionally followed by a colon and a second component.  Since the
component classes exclude `:`, this is: split at the first colon and check each
side (a second colon makes the right side fail). -/
def validateToken (s : List Char) : Bool :=
  match s.span (fun c => c ≠ ':') with
  | (a, []) => ncname a
  | (a, _ :: b) => ncname a && ncname b

/-- One `String.prototype.replace(/c/gu, rep)` pass: every occurrence of the
single character `c` is replaced by `rep`. -/
def replaceChar (c : Char) (rep : List Char) : List Char → List Char
  | [] => []
  | x :: xs => (if x = c then rep else [x]) ++ replaceChar c rep xs

/-- The five chained replacements of `Element.escapeText`, in source order:
`&`→`&amp;`, `<`→`&lt;`, `>`→`&gt;`, `'`→`&apos;`, `"`→`&quot;`. -/
def escapeRaw (s : List Char) : List Char :=
  replaceChar '"' (str ("&quot;"))
    (replaceChar '\'' (str ("&apos;"))
      (replaceChar '>' (str ("&gt;"))
        (replaceChar '<' (str ("&lt;"))
          (replaceChar '&' (str ("&amp;")) s))))

/-- Errors thrown by the source (all are `TypeError`s there; distinguished here
by the spec's names for them). -/
inductive JsErr
  | invalidName
  | invalidText
  | voidElement
  | notEscapable
  | alreadyChild
  | rawTextChild
  | cyclicReference
deriving DecidableEq, Repr

/-- `Element.escapeText` with its validation guard: throws `InvalidTextError`
on input failing the Text grammar, otherwise performs the five replacements. -/
def escapeText (s : List Char) : Except JsErr (List Char) :=
  if validateText s then .ok (escapeRaw s) else .error .invalidText

/-- Per-character form of the composite escape: what the chain of five
replacements does to one character. -/
def escChar (c : Char) : List Char :=
  if c = '&' then str ("&amp;")
  else if c = '<' then str ("&lt;")
  else if c = '>' then str ("&gt;")
  else if c = '\'' then str ("&apos;")
  else if c = '"' then str ("&quot;")
  else [c]

/-- Modelled from the spec: the inverse of the five entity substitutions (the
spec's `unescape`, which has no counterpart in src/): a left-to-right scan
turning each of the five entities back into its character and copying
everything else. -/
def unescape : List Char → List Char
  | '&' :: 'a' :: 'm' :: 'p' :: ';' :: rest => '&' :: unescape rest
  | '&' :: 'l' :: 't' :: ';' :: rest => '<' :: unescape rest
  | '&' :: 'g' :: 't' :: ';' :: rest => '>' :: unescape rest
  | '&' :: 'a' :: 'p' :: 'o' :: 's' :: ';' :: rest => '\'' :: unescape rest
  | '&' :: 'q' :: 'u' :: 'o' :: 't' :: ';' :: rest => '"' :: unescape rest
  | c :: cs => c :: unescape cs
  | [] => []

theorem replaceChar_append (c : Char) (rep a b : List Char) :
    replaceChar c rep (a ++ b) = replaceChar c rep a ++ replaceChar c rep b := by
  induction a with
  | nil => rfl
  | cons x xs ih => simp [replaceChar, ih]

theorem escapeRaw_nil : escapeRaw [] = [] := rfl

theorem escapeRaw_cons (x : Char) (xs : List Char) :
    escapeRaw (x :: xs) = escChar x ++ escapeRaw xs := by
  by_cases h1 : x = '&'
  · subst h1; rfl
  · by_cases h2 : x = '<'
    · subst h2; rfl
    · by_cases h3 : x = '>'
      · subst h3; rfl
      · by_cases h4 : x = '\''
        · subst h4; rfl
        · by_cases h5 : x = '"'
          · subst h5; rfl
          · simp only [escapeRaw, escChar, replaceChar, if_neg h1, if_neg h2,
              if_neg h3, if_neg h4, if_neg h5, replaceChar_append]
            simp [replaceChar, h1, h2, h3, h4, h5]

set_option maxHeartbeats 1600000 in
theorem unescape_cons_ne (c : Char) (cs : List Char) (h : c ≠ '&') :
    unescape (c :: cs) = c :: unescape cs := by
  conv_lhs => rw [unescape.eq_def]
  split <;> simp_all

theorem unescape_escChar (x : Char) (rest : List Char) :
    unescape (escChar x ++ rest) = x :: unescape rest := by
  by_cases h1 : x = '&'
  · subst h1; rfl
  · by_cases h2 : x = '<'
    · subst h2; rfl
    · by_cases h3 : x = '>'
      · subst h3; rfl
      · by_cases h4 : x = '\''
        · subst h4; rfl
        · by_cases h5 : x = '"'
          · subst h5; rfl
          · simp only [escChar, if_neg h1, if_neg h2, if_neg h3, if_neg h4,
              if_neg h5, List.cons_append, List.nil_append]
            exact unescape_cons_ne x rest h1

theorem unescape_escapeRaw (s : List Char) : unescape (escapeRaw s) = s := by
  induction s with
  | nil => rfl
  | cons x xs ih => rw [escapeRaw_cons, unescape_escChar, ih]

theorem escapeRaw_injective (s t : List Char) (h : escapeRaw s = escapeRaw t) :
    s = t := by
  have hs := unescape_escapeRaw s
  have ht := unescape_escapeRaw t
  rw [← hs, ← ht, h]

/-- One slot of a `children` array: an owned child Element (by heap id), a
text string, or a hole (`delete arr[i]` leaves `undefined` at that index). -/
inductive Entry
  | elem (id : Nat)
  | text (s : List Char)
  | hole
deriving DecidableEq, Repr

/-- The per-instance shadow record of one Element.  `parent` holds the pair
`(shadow.parent, shadow.parentIndex)`; the source always assigns and deletes
those two fields together, so an `Option` of the pair is an exact model.
`document` marks the owner-Document back-reference set on a Document's root. -/
structure ElemData where
  realName : List Char
  name : List Char
  void : Bool
  raw : Bool
  escapable : Bool
  attributes : List (List Char × List Char)
  children : List Entry
  parent : Option (Nat × Nat)
  document : Bool
deriving DecidableEq, Repr

/-- The object graph: element records indexed by allocation order. -/
abbrev Heap := List ElemData

/-- Placeholder returned when a heap is read out of range (never reachable
through the API, which only hands out allocated ids). -/
def blankData : ElemData :=
  { realName := [], name := [], void := false, raw := false,
    escapable := true, attributes := [], children := [],
    parent := none, document := false }

/-- Read an element record. -/
def getE (H : Heap) (i : Nat) : ElemData := H.getD i blankData

/-- Write an element record (no-op out of range, matching that such ids are
never handed out). -/
def setE (H : Heap) (i : Nat) (d : ElemData) : Heap := H.set i d

/-- `Element.VOID_ELEMENTS`. -/
def VOID_ELEMENTS : List (List Char) :=
  [str ("area"), str ("base"), str ("br"), str ("col"), str ("embed"),
   str ("hr"), str ("img"), str ("input"), str ("link"), str ("meta"),
   str ("param"), str ("source"), str ("track"), str ("wbr")]

/-- `Element.RAW_TEXT_ELEMENTS`. -/
def RAW_TEXT_ELEMENTS : List (List Char) := [str ("script"), str ("style")]

/-- `Element.ESCAPABLE_RAW_TEXT_ELEMENTS`. -/
def ESCAPABLE_RAW_TEXT_ELEMENTS : List (List Char) :=
  [str ("textarea"), str ("title")]

/-- The `Element` constructor: validates the tag name, then allocates a record
with the derived `name`, `void`, `raw` and `escapable` flags and empty
`attributes` and `children`.  Returns the new heap and the new element's id. -/
def elementNew (H : Heap) (tagName : List Char) : Except JsErr (Heap × Nat) :=
  if validateToken tagName then
    let nm := tagName.map Char.toLower
    .ok (H ++ [{ realName := tagName, name := nm,
                 void := VOID_ELEMENTS.contains nm,
                 raw := RAW_TEXT_ELEMENTS.contains nm
                    || ESCAPABLE_RAW_TEXT_ELEMENTS.contains nm,
                 escapable := !RAW_TEXT_ELEMENTS.contains nm,
                 attributes := [], children := [],
                 parent := none, document := false }], H.length)
  else .error .invalidName

/-- `get parentElement`: the stored parent id, if any. -/
def parentElement (H : Heap) (i : Nat) : Option Nat :=
  (getE H i).parent.map Prod.fst

/-- The `do { if (current == child) throw } while (current = current.parentElement)`
walk of `append`'s cyclic-reference check, walking up from `cur`.  The source
recursion is unbounded; an acyclic parent chain visits at most `H.length + 1`
distinct nodes, so with fuel `H.length + 2` fuel exhaustion occurs only on a
cyclic parent chain, where the source would not terminate; the model then
reports a cycle. -/
def hasAncestor (H : Heap) (child : Nat) : Nat → Nat → Bool
  | 0, _ => true
  | fuel + 1, cur =>
    cur = child ||
      match parentElement H cur with
      | none => false
      | some p => hasAncestor H child fuel p

/-- An argument to `append`: an Element (anything passing `instanceof Element`)
or a text value already coerced to its string form. -/
inductive Arg
  | elem (id : Nat)
  | text (s : List Char)
deriving DecidableEq, Repr

/-- First-pass validation of one `append` argument, in source order:
already-a-child, raw-text-child, cyclic-reference for Elements; the Text
grammar for text. -/
def validateArg (H : Heap) (self : Nat) : Arg → Option JsErr
  | .elem c =>
    if (parentElement H c).isSome then some .alreadyChild
    else if (getE H self).raw then some .rawTextChild
    else if hasAncestor H c (H.length + 2) self then some .cyclicReference
    else none
  | .text s => if validateText s then none else some .invalidText

/-- The whole first pass: arguments are validated left to right and the first
failure is thrown. -/
def validateArgs (H : Heap) (self : Nat) : List Arg → Option JsErr
  | [] => none
  | a :: rest =>
    match validateArg H self a with
    | some e => some e
    | none => validateArgs H self rest

/-- The second (attach) pass of `append`: for each Element argument sets
`parent` to `self` and `parentIndex` to the CURRENT length of `self`'s
children array — which the source reads before anything has been pushed
(`shadow.children.push(...tmp)` runs only after this loop) — and collects the
entries to push. -/
def attachPass (self : Nat) (H : Heap) : List Arg → Heap × List Entry
  | [] => (H, [])
  | .elem c :: rest =>
    let H2 := setE H c
      { getE H c with parent := some (self, (getE H self).children.length) }
    let r := attachPass self H2 rest
    (r.1, Entry.elem c :: r.2)
  | .text s :: rest =>
    let r := attachPass self H rest
    (r.1, Entry.text s :: r.2)

/-- `Element.prototype.append`: void and escapable guards, then the validation
pass over all arguments, then the attach pass and a single push of all new
entries.  Returns the heap after the call together with the error thrown, if
any; every error is thrown before any mutation. -/
def appendOp (H : Heap) (self : Nat) (args : List Arg) : Heap × Option JsErr :=
  if (getE H self).void then (H, some .voidElement)
  else if !(getE H self).escapable then (H, some .notEscapable)
  else
    match validateArgs H self args with
    | some e => (H, some e)
    | none =>
      let r := attachPass self H args
      let d := getE r.1 self
      (setE r.1 self { d with children := d.children ++ r.2 }, none)

/-- Replace index `idx` of a children array by a hole (`delete arr[idx]`);
out-of-range deletes change nothing. -/
def holeAt : List Entry → Nat → List Entry
  | [], _ => []
  | _ :: xs, 0 => Entry.hole :: xs
  | x :: xs, n + 1 => x :: holeAt xs n

/-- `Element.prototype.remove`: no-op when detached; otherwise holes the slot
`parentIndex` of the recorded parent's children array, then clears `parent`
and `parentIndex`. -/
def removeOp (H : Heap) (self : Nat) : Heap :=
  match (getE H self).parent with
  | none => H
  | some (p, idx) =>
    let pd := getE H p
    let H1 := setE H p { pd with children := holeAt pd.children idx }
    let d := getE H1 self
    setE H1 self { d with parent := none }

/-- `get children`: the children array with holes filtered out. -/
def childrenView (H : Heap) (i : Nat) : List Entry :=
  (getE H i).children.filter (fun e => e ≠ Entry.hole)

/-- The loop of `Element.prototype.clear`: for indices `i, i+1, ...` (`n` of
them) reads the CURRENT slot and calls `remove()` on Element entries (the
source's `for...of` reads the live array, which `remove` mutates). -/
def clearLoop (self : Nat) : Nat → Nat → Heap → Heap
  | _, 0, H => H
  | i, n + 1, H =>
    let H2 :=
      match (getE H self).children.get? i with
      | some (Entry.elem c) => removeOp H c
      | _ => H
    clearLoop self (i + 1) n H2

/-- `Element.prototype.clear`: detach every Element child, then replace the
children array by a fresh empty one. -/
def clearOp (H : Heap) (self : Nat) : Heap :=
  let H1 := clearLoop self 0 (getE H self).children.length H
  let d := getE H1 self
  setE H1 self { d with children := [] }

/-- `Element.prototype.setAttribute`: validates the name against the
Name-Token grammar and the value against the Text grammar, then stores or
overwrites the attribute (overwriting keeps the key's original position, as
assignment to an existing JS object key does). -/
def setAttr (H : Heap) (i : Nat) (name value : List Char) :
    Heap × Option JsErr :=
  if !validateToken name then (H, some .invalidName)
  else if !validateText value then (H, some .invalidText)
  else
    let d := getE H i
    (setE H i { d with attributes := putAttr d.attributes name value }, none)
where
  /-- Store or overwrite one key of the attribute record. -/
  putAttr : List (List Char × List Char) → List Char → List Char →
      List (List Char × List Char)
  | [], n, v => [(n, v)]
  | (k, w) :: rest, n, v =>
    if k = n then (n, v) :: rest else (k, w) :: putAttr rest n v

/-- `Element.prototype.removeAttribute`: deletes the key if present. -/
def removeAttr (H : Heap) (i : Nat) (name : List Char) : Heap :=
  let d := getE H i
  setE H i { d with attributes := d.attributes.eraseP (fun kv => kv.1 = name) }

/-- The comparison of the JS default `Array.prototype.sort` on strings:
lexicographic (`a ≤ b`) by code point.  For the names stored in an attribute
record (which passed the ASCII-only Name-Token grammar) code-point order and
the engine's code-unit order coincide. -/
def lexLe : List Char → List Char → Bool
  | [], _ => true
  | _ :: _, [] => false
  | a :: as, b :: bs => if a < b then true else if b < a then false else lexLe as bs

/-- `lexLe` on the key of an attribute entry, as a relation. -/
def attrLe (a b : List Char × List Char) : Prop := lexLe a.1 b.1 = true

instance : DecidableRel attrLe := fun a b =>
  inferInstanceAs (Decidable (lexLe a.1 b.1 = true))

/-- `Reflect.ownKeys(shadow.attributes).sort()`: the attribute entries ordered
by ascending code-point-lexicographic key order (JS default sort; keys are
unique, so any correct sort yields the same sequence). -/
def sortAttrs (l : List (List Char × List Char)) :
    List (List Char × List Char) :=
  l.insertionSort attrLe

/-- One serialized attribute: a tab, the name, `='`, the escaped value, `'`.
Stored values satisfied the Text grammar at `setAttribute` time, so the
`escapeText` guard cannot fire and the raw replacement chain is exact. -/
def renderAttr (kv : List Char × List Char) : List Char :=
  '\t' :: (kv.1 ++ '=' :: '\'' :: (escapeRaw kv.2 ++ ['\'']))

/-- `get outerHTML` (also `toString`), fuel-bounded exactly like
`hasAncestor`: `<realName`, the sorted rendered attributes, then `/>` for a
void element, else `>` + the concatenation of each non-hole child (Elements
serialize recursively, text is escaped) + `</realName>`. -/
def outerHTMLF : Nat → Heap → Nat → List Char
  | 0, _, _ => []
  | fuel + 1, H, i =>
    let d := getE H i
    let s1 := '<' :: (d.realName ++ ((sortAttrs d.attributes).map renderAttr).flatten)
    if d.void then s1 ++ str ("/>")
    else
      let body := (d.children.map (fun e =>
        match e with
        | Entry.hole => []
        | Entry.elem c => outerHTMLF fuel H c
        | Entry.text s => escapeRaw s)).flatten
      s1 ++ '>' :: (body ++ '<' :: '/' :: (d.realName ++ ['>']))

/-- `get innerHTML`: concatenation of each non-hole child's serialization. -/
def innerHTMLF (fuel : Nat) (H : Heap) (i : Nat) : List Char :=
  ((getE H i).children.map (fun e =>
    match e with
    | Entry.hole => []
    | Entry.elem c => outerHTMLF fuel H c
    | Entry.text s => escapeRaw s)).flatten

/-- `get innerText`: like `innerHTML` but Element children contribute their
own `innerText`; note that text children still pass through
`Element.escapeText`. -/
def innerTextF : Nat → Heap → Nat → List Char
  | 0, _, _ => []
  | fuel + 1, H, i =>
    ((getE H i).children.map (fun e =>
      match e with
      | Entry.hole => []
      | Entry.elem c => innerTextF fuel H c
      | Entry.text s => escapeRaw s)).flatten

/-- `outerHTML` at the canonical fuel (sufficient for every acyclic tree). -/
def outerHTML (H : Heap) (i : Nat) : List Char :=
  outerHTMLF (H.length + 1) H i

/-- `innerHTML` at the canonical fuel. -/
def innerHTML (H : Heap) (i : Nat) : List Char :=
  innerHTMLF (H.length + 1) H i

/-- `innerText` at the canonical fuel. -/
def innerText (H : Heap) (i : Nat) : List Char :=
  innerTextF (H.length + 1) H i

/-- `set innerText`: clears all children, then appends the coerced string as
the sole (text) argument; the error of that `append`, if any, surfaces after
the clear has already happened. -/
def innerTextSet (H : Heap) (i : Nat) (s : List Char) : Heap × Option JsErr :=
  appendOp (clearOp H i) i [Arg.text s]

/-- A `Document`: its heap plus the ids of the five elements the constructor
creates and stores (`shadow.html/head/body/charset/title`). -/
structure Doc where
  heap : Heap
  html : Nat
  head : Nat
  body : Nat
  charset : Nat
  title : Nat
deriving DecidableEq, Repr

/-- The `Document` constructor: creates `html` (with the owner-document mark
and the two `xmlns` attributes), then `head` and `body` appended under `html`,
then the `meta charset='UTF-8'` and `title` elements appended under `head`.
None of the steps can fail on these fixed inputs, so the error defaults are
unreachable. -/
def newDocument : Doc :=
  match elementNew [] (str ("html")) with
  | .error _ => ⟨[], 0, 0, 0, 0, 0⟩
  | .ok (h0, html) =>
    let h0b := setE h0 html { getE h0 html with document := true }
    let h1 := (setAttr h0b html (str ("xmlns"))
      (str ("http://www.w3.org/1999/xhtml"))).1
    let h2 := (setAttr h1 html (str ("xmlns:xlink"))
      (str ("http://www.w3.org/1999/xlink"))).1
    match elementNew h2 (str ("head")) with
    | .error _ => ⟨[], 0, 0, 0, 0, 0⟩
    | .ok (h3, headId) =>
      let h4 := (appendOp h3 html [Arg.elem headId]).1
      match elementNew h4 (str ("body")) with
      | .error _ => ⟨[], 0, 0, 0, 0, 0⟩
      | .ok (h5, bodyId) =>
        let h6 := (appendOp h5 html [Arg.elem bodyId]).1
        match elementNew h6 (str ("meta")) with
        | .error _ => ⟨[], 0, 0, 0, 0, 0⟩
        | .ok (h7, metaId) =>
          let h8 := (setAttr h7 metaId (str ("charset")) (str ("UTF-8"))).1
          let h9 := (appendOp h8 headId [Arg.elem metaId]).1
          match elementNew h9 (str ("title")) with
          | .error _ => ⟨[], 0, 0, 0, 0, 0⟩
          | .ok (h10, titleId) =>
            let h11 := (appendOp h10 headId [Arg.elem titleId]).1
            ⟨h11, html, headId, bodyId, metaId, titleId⟩

/-- `get title` of a Document: the stored title element's `innerText`. -/
def docTitleGet (d : Doc) : List Char := innerText d.heap d.title

/-- `set title` of a Document: the stored title element's `innerText` setter. -/
def docTitleSet (d : Doc) (s : List Char) : Doc × Option JsErr :=
  let r := innerTextSet d.heap d.title s
  ({ d with heap := r.1 }, r.2)

/-- `Document.prototype.toString`: the doctype followed by the serialized root
element. -/
def docToString (d : Doc) : List Char :=
  str ("<!DOCTYPE\thtml>") ++ outerHTML d.heap d.html

/-- The ancestor chain of `e`: `e` itself followed by its parents upward
(fuel-bounded like `hasAncestor`; the claims quantify over this chain). -/
def chainFrom (H : Heap) : Nat → Nat → List Nat
  | 0, i => [i]
  | fuel + 1, i =>
    i :: (match parentElement H i with
          | none => []
          | some p => chainFrom H fuel p)

/-- The ancestor chain at the canonical fuel. -/
def ancestorChain (H : Heap) (e : Nat) : List Nat :=
  chainFrom H (H.length + 1) e

/-- Is the first list an initial segment of the second? -/
def isPre : List Char → List Char → Bool
  | [], _ => true
  | _ :: _, [] => false
  | a :: as, b :: bs => a = b && isPre as bs

/-- Number of positions of `s` at which the (nonempty) pattern occurs. -/
def countSubstr (pat : List Char) : List Char → Nat
  | [] => 0
  | c :: rest => (if isPre pat (c :: rest) then 1 else 0) + countSubstr pat rest

/-- Heap of `p = new Element('div'); a = new Element('span'); b = new Element('em')`
(ids 0, 1, 2). -/
def divSpanEmHeap : Heap :=
  match elementNew [] (str ("div")) with
  | .ok (h, _) =>
    match elementNew h (str ("span")) with
    | .ok (h2, _) =>
      match elementNew h2 (str ("em")) with
      | .ok (h3, _) => h3
      | .error _ => []
    | .error _ => []
  | .error _ => []

/-- The previous heap after `p.append(a, b)`. -/
def divSpanEmAppended : Heap := (appendOp divSpanEmHeap 0 [Arg.elem 1, Arg.elem 2]).1

/-- ... and then after `b.remove()`. -/
def divSpanEmRemoved : Heap := removeOp divSpanEmAppended 2

/-- Heap of `new Element('div')` then `new Element('span')` then
`div.append(span)` (ids 0, 1). -/
def divWithSpanHeap : Heap :=
  match elementNew [] (str ("div")) with
  | .ok (h, _) =>
    match elementNew h (str ("span")) with
    | .ok (h2, _) => (appendOp h2 0 [Arg.elem 1]).1
    | .error _ => []
  | .error _ => []

/-- Heap of `e = new Element('div'); e.setAttribute('data-x', "a'b\"c<d>e&f")`. -/
def divDataXHeap : Heap :=
  match elementNew [] (str ("div")) with
  | .ok (h, _) => (setAttr h 0 (str ("data-x")) (str ("a'b\"c<d>e&f"))).1
  | .error _ => []

/-- Heap of `new Element('br')`. -/
def brHeap : Heap :=
  match elementNew [] (str ("br")) with
  | .ok (h, _) => h
  | .error _ => []

/-- Heap of a single detached `new Element('div')`. -/
def lonelyDivHeap : Heap :=
  match elementNew [] (str ("div")) with
  | .ok (h, _) => h
  | .error _ => []

theorem setE_oob : ∀ (H : Heap) (i : Nat) (d : ElemData),
    H.length ≤ i → setE H i d = H
  | [], _, _, _ => rfl
  | _ :: _, 0, _, h => absurd h (by simp)
  | x :: xs, i + 1, d, h => by
    have := setE_oob xs i d (by simpa using h)
    simp only [setE, List.set] at *
    rw [this]

theorem getE_setE_self : ∀ (H : Heap) (i : Nat) (d : ElemData),
    i < H.length → getE (setE H i d) i = d
  | [], i, _, h => absurd h (by simp)
  | _ :: _, 0, _, _ => rfl
  | _ :: xs, i + 1, d, h => getE_setE_self xs i d (by simpa using h)

theorem getE_setE_ne : ∀ (H : Heap) (i j : Nat) (d : ElemData),
    i ≠ j → getE (setE H i d) j = getE H j
  | [], _, _, _, _ => rfl
  | _ :: _, 0, 0, _, h => absurd rfl h
  | _ :: _, 0, _ + 1, _, _ => rfl
  | _ :: _, _ + 1, 0, _, _ => rfl
  | _ :: xs, i + 1, j + 1, d, h =>
    getE_setE_ne xs i j d (fun hh => h (by rw [hh]))

theorem length_setE (H : Heap) (i : Nat) (d : ElemData) :
    (setE H i d).length = H.length := List.length_set H i d

/-- A projection unchanged by a record write that preserves it. -/
theorem getE_setE_proj {α : Type} (f : ElemData → α) (H : Heap) (x v : Nat)
    (d : ElemData) (hd : f d = f (getE H x)) :
    f (getE (setE H x d) v) = f (getE H v) := by
  by_cases hxv : x = v
  · subst hxv
    by_cases hx : x < H.length
    · rw [getE_setE_self _ _ _ hx, hd]
    · rw [setE_oob _ _ _ (le_of_not_lt hx)]
  · rw [getE_setE_ne _ _ _ _ hxv]

theorem getE_append_lt : ∀ (H : Heap) (d : ElemData) (v : Nat),
    v < H.length → getE (H ++ [d]) v = getE H v
  | [], _, _, h => absurd h (by simp)
  | _ :: _, _, 0, _ => rfl
  | _ :: xs, d, v + 1, h => getE_append_lt xs d v (by simpa using h)

theorem getE_append_self : ∀ (H : Heap) (d : ElemData),
    getE (H ++ [d]) H.length = d
  | [], _ => rfl
  | _ :: xs, d => getE_append_self xs d

theorem getE_append_gt : ∀ (H : Heap) (d : ElemData) (v : Nat),
    H.length < v → getE (H ++ [d]) v = blankData
  | [], _, _ + 1, _ => rfl
  | [], _, 0, h => absurd h (by simp)
  | _ :: _, _, 0, h => absurd h (by simp)
  | _ :: xs, d, v + 1, h => getE_append_gt xs d v (by simpa using h)

theorem holeAt_length : ∀ (l : List Entry) (i : Nat),
    (holeAt l i).length = l.length
  | [], _ => rfl
  | _ :: _, 0 => rfl
  | _ :: xs, i + 1 => by simpa [holeAt] using holeAt_length xs i

theorem holeAt_nil (i : Nat) : holeAt [] i = [] := rfl

/-- `remove()` rewrites only the `children` field of the recorded parent and
the `parent` field of the removed element, so any projection untouched by
both writes is globally preserved. -/
theorem removeOp_proj {α : Type} (f : ElemData → α)
    (hf1 : ∀ (d : ElemData) ch, f { d with children := ch } = f d)
    (hf2 : ∀ d : ElemData, f { d with parent := none } = f d)
    (H : Heap) (x v : Nat) :
    f (getE (removeOp H x) v) = f (getE H v) := by
  unfold removeOp
  cases hpar : (getE H x).parent with
  | none => rfl
  | some pi =>
    obtain ⟨p, idx⟩ := pi
    simp only
    rw [getE_setE_proj f _ x v _ (hf2 _), getE_setE_proj f H p v _ (hf1 _ _)]

theorem removeOp_void (H : Heap) (x v : Nat) :
    (getE (removeOp H x) v).void = (getE H v).void :=
  removeOp_proj ElemData.void (fun _ _ => rfl) (fun _ => rfl) H x v

theorem removeOp_escapable (H : Heap) (x v : Nat) :
    (getE (removeOp H x) v).escapable = (getE H v).escapable :=
  removeOp_proj ElemData.escapable (fun _ _ => rfl) (fun _ => rfl) H x v

theorem removeOp_length (H : Heap) (x : Nat) :
    (removeOp H x).length = H.length := by
  unfold removeOp
  cases hpar : (getE H x).parent with
  | none => rfl
  | some pi => obtain ⟨p, idx⟩ := pi; simp only [length_setE]

/-- A parent link that is already cleared stays cleared under `remove()`. -/
theorem removeOp_parent_none (H : Heap) (x v : Nat)
    (hv : (getE H v).parent = none) :
    (getE (removeOp H x) v).parent = none := by
  unfold removeOp
  cases hpar : (getE H x).parent with
  | none => exact hv
  | some pi =>
    obtain ⟨p, idx⟩ := pi
    simp only
    by_cases hxv : x = v
    · subst hxv
      rw [hpar] at hv
      exact absurd hv (by simp)
    · rw [getE_setE_ne _ _ _ _ hxv]
      have h1 : (getE (setE H p { getE H p with
          children := holeAt (getE H p).children idx }) v).parent =
          (getE H v).parent :=
        getE_setE_proj ElemData.parent H p v
          { getE H p with children := holeAt (getE H p).children idx } rfl
      rw [h1]
      exact hv

/-- An empty children array stays empty under `remove()` (holing an empty
array does nothing, and the parent-link write does not touch children). -/
theorem removeOp_children_empty (H : Heap) (x v : Nat)
    (hv : (getE H v).children = []) :
    (getE (removeOp H x) v).children = [] := by
  unfold removeOp
  cases hpar : (getE H x).parent with
  | none => exact hv
  | some pi =>
    obtain ⟨p, idx⟩ := pi
    simp only
    have step1 : (getE (setE H p { getE H p with
        children := holeAt (getE H p).children idx }) v).children = [] := by
      by_cases hpv : p = v
      · subst hpv
        by_cases hp : p < H.length
        · rw [getE_setE_self _ _ _ hp]; rw [hv]; rfl
        · rw [setE_oob _ _ _ (le_of_not_lt hp)]; exact hv
      · rw [getE_setE_ne _ _ _ _ hpv]; exact hv
    have h2 : (getE (setE (setE H p { getE H p with
        children := holeAt (getE H p).children idx }) x
        { getE (setE H p { getE H p with
            children := holeAt (getE H p).children idx }) x with
          parent := none }) v).children =
        (getE (setE H p { getE H p with
          children := holeAt (getE H p).children idx }) v).children :=
      getE_setE_proj ElemData.children _ x v _ rfl
    rw [h2]
    exact step1

theorem clearLoop_proj {α : Type} (f : ElemData → α)
    (hf1 : ∀ (d : ElemData) ch, f { d with children := ch } = f d)
    (hf2 : ∀ d : ElemData, f { d with parent := none } = f d)
    (self : Nat) :
    ∀ (n i : Nat) (H : Heap) (v : Nat),
      f (getE (clearLoop self i n H) v) = f (getE H v)
  | 0, _, _, _ => rfl
  | n + 1, i, H, v => by
    unfold clearLoop
    cases hc : (getE H self).children.get? i with
    | none => exact clearLoop_proj f hf1 hf2 self n (i + 1) H v
    | some e =>
      cases e with
      | elem c =>
        rw [clearLoop_proj f hf1 hf2 self n (i + 1) (removeOp H c) v]
        exact removeOp_proj f hf1 hf2 H c v
      | text s => exact clearLoop_proj f hf1 hf2 self n (i + 1) H v
      | hole => exact clearLoop_proj f hf1 hf2 self n (i + 1) H v

theorem clearLoop_parent_none (self : Nat) :
    ∀ (n i : Nat) (H : Heap) (v : Nat), (getE H v).parent = none →
      (getE (clearLoop self i n H) v).parent = none
  | 0, _, _, _, hv => hv
  | n + 1, i, H, v, hv => by
    unfold clearLoop
    cases hc : (getE H self).children.get? i with
    | none => exact clearLoop_parent_none self n (i + 1) H v hv
    | some e =>
      cases e with
      | elem c =>
        exact clearLoop_parent_none self n (i + 1) (removeOp H c) v
          (removeOp_parent_none H c v hv)
      | text s => exact clearLoop_parent_none self n (i + 1) H v hv
      | hole => exact clearLoop_parent_none self n (i + 1) H v hv

theorem clearLoop_children_empty (self : Nat) :
    ∀ (n i : Nat) (H : Heap) (v : Nat), (getE H v).children = [] →
      (getE (clearLoop self i n H) v).children = []
  | 0, _, _, _, hv => hv
  | n + 1, i, H, v, hv => by
    unfold clearLoop
    cases hc : (getE H self).children.get? i with
    | none => exact clearLoop_children_empty self n (i + 1) H v hv
    | some e =>
      cases e with
      | elem c =>
        exact clearLoop_children_empty self n (i + 1) (removeOp H c) v
          (removeOp_children_empty H c v hv)
      | text s => exact clearLoop_children_empty self n (i + 1) H v hv
      | hole => exact clearLoop_children_empty self n (i + 1) H v hv

/-- `clear()` does not change a `children` field that is already empty
(for any element, not just the receiver). -/
theorem clearOp_children_empty (H : Heap) (x v : Nat)
    (hv : (getE H v).children = []) :
    (getE (clearOp H x) v).children = [] := by
  unfold clearOp
  have h1 := clearLoop_children_empty x (getE H x).children.length 0 H v hv
  by_cases hxv : x = v
  · subst hxv
    by_cases hx : x < (clearLoop x 0 (getE H x).children.length H).length
    · rw [getE_setE_self _ _ _ hx]
    · rw [setE_oob _ _ _ (le_of_not_lt hx)]
      exact h1
  · rw [getE_setE_ne _ _ _ _ hxv]
    exact h1

theorem clearOp_proj {α : Type} (f : ElemData → α)
    (hf1 : ∀ (d : ElemData) ch, f { d with children := ch } = f d)
    (hf2 : ∀ d : ElemData, f { d with parent := none } = f d)
    (H : Heap) (x v : Nat) :
    f (getE (clearOp H x) v) = f (getE H v) := by
  unfold clearOp
  have h1 : f (getE (setE (clearLoop x 0 (getE H x).children.length H) x
      { getE (clearLoop x 0 (getE H x).children.length H) x with
        children := [] }) v) =
      f (getE (clearLoop x 0 (getE H x).children.length H) v) :=
    getE_setE_proj f _ x v _ (hf1 _ _)
  rw [h1]
  exact clearLoop_proj f hf1 hf2 x _ 0 H v

theorem clearOp_parent_none (H : Heap) (x v : Nat)
    (hv : (getE H v).parent = none) :
    (getE (clearOp H x) v).parent = none := by
  unfold clearOp
  have h1 := clearLoop_parent_none x (getE H x).children.length 0 H v hv
  have h2 : (getE (setE (clearLoop x 0 (getE H x).children.length H) x
      { getE (clearLoop x 0 (getE H x).children.length H) x with
        children := [] }) v).parent =
      (getE (clearLoop x 0 (getE H x).children.length H) v).parent :=
    getE_setE_proj ElemData.parent _ x v _ rfl
  rw [h2]
  exact h1

/-- Every error of `append` is thrown during validation, before any mutation:
on error, the returned heap is the input heap. -/
theorem appendOp_err_unchanged (H : Heap) (self : Nat) (args : List Arg)
    (h : ((appendOp H self args).2).isSome = true) :
    (appendOp H self args).1 = H := by
  unfold appendOp at *
  by_cases h1 : (getE H self).void = true
  · simp [h1]
  · by_cases h2 : (getE H self).escapable = true
    · cases hv : validateArgs H self args with
      | some e => simp [h1, h2, hv]
      | none => simp [h1, h2, hv] at h
    · simp [h1, h2]

/-- `append` on a void element: `VoidElementError`, nothing changed. -/
theorem appendOp_void (H : Heap) (self : Nat) (args : List Arg)
    (h : (getE H self).void = true) :
    appendOp H self args = (H, some JsErr.voidElement) := by
  unfold appendOp
  simp [h]

/-- The attach pass only writes `parent` fields, never `children`. -/
theorem attachPass_children (self : Nat) :
    ∀ (args : List Arg) (H : Heap) (v : Nat),
      (getE (attachPass self H args).1 v).children = (getE H v).children
  | [], _, _ => rfl
  | Arg.elem c :: rest, H, v => by
    unfold attachPass
    simp only
    rw [attachPass_children self rest _ v]
    exact getE_setE_proj ElemData.children H c v _ rfl
  | Arg.text s :: rest, H, v => by
    unfold attachPass
    simp only
    exact attachPass_children self rest H v

/-- `append` never changes any element's `children` field except the
receiver's. -/
theorem appendOp_children_ne (H : Heap) (self : Nat) (args : List Arg)
    (v : Nat) (hne : self ≠ v) :
    (getE (appendOp H self args).1 v).children = (getE H v).children := by
  unfold appendOp
  by_cases h1 : (getE H self).void = true
  · simp [h1]
  · by_cases h2 : (getE H self).escapable = true
    · cases hv : validateArgs H self args with
      | some e => simp [h1, h2, hv]
      | none =>
        simp only [h1, h2, hv, Bool.not_true, if_false, if_neg, Bool.false_eq_true,
          Bool.not_false, if_true]
        rw [getE_setE_ne _ _ _ _ hne]
        exact attachPass_children self args H v
    · simp [h1, h2]

/-- A successful `append` of a single text argument: the receiver's children
array gains the text entry at the end, and nothing else happens. -/
theorem appendOp_text_ok (H : Heap) (i : Nat) (s : List Char)
    (h0 : (getE H i).void = false) (h1 : (getE H i).escapable = true)
    (h2 : validateText s = true) :
    appendOp H i [Arg.text s] =
      (setE H i { getE H i with
        children := (getE H i).children ++ [Entry.text s] }, none) := by
  simp [appendOp, validateArgs, validateArg, attachPass, h0, h1, h2]

theorem elementNew_children (H : Heap) (t : List Char) (H2 : Heap) (i : Nat)
    (h : elementNew H t = .ok (H2, i)) : (getE H2 i).children = [] := by
  unfold elementNew at h
  by_cases hv : validateToken t = true
  · simp only [hv, if_true] at h
    injection h with h
    injection h with hH hi
    subst hH; subst hi
    rw [getE_append_self]
  · simp [hv] at h

/-- Allocating a fresh element leaves every id with an empty children array
empty (existing ids are untouched; the new id starts empty). -/
theorem elementNew_children_empty (H : Heap) (t : List Char) (H2 : Heap)
    (i v : Nat) (hv : (getE H v).children = [])
    (h : elementNew H t = .ok (H2, i)) : (getE H2 v).children = [] := by
  unfold elementNew at h
  by_cases hvt : validateToken t = true
  · simp only [hvt, if_true] at h
    injection h with h
    injection h with hH hi
    subst hH
    rcases Nat.lt_trichotomy v H.length with hlt | heq | hgt
    · rw [getE_append_lt _ _ _ hlt]; exact hv
    · rw [heq, getE_append_self]
    · rw [getE_append_gt _ _ _ hgt]; rfl
  · simp [hvt] at h

theorem lexLe_total : ∀ a b : List Char, lexLe a b = true ∨ lexLe b a = true
  | [], _ => Or.inl rfl
  | _ :: _, [] => Or.inr rfl
  | a :: as, b :: bs => by
    unfold lexLe
    rcases lt_trichotomy a b with h | h | h
    · left; simp [h]
    · subst h
      simp only [lt_irrefl, if_false]
      exact lexLe_total as bs
    · right; simp [h]

theorem lexLe_trans : ∀ a b c : List Char,
    lexLe a b = true → lexLe b c = true → lexLe a c = true
  | [], _, _, _, _ => rfl
  | _ :: _, [], _, h, _ => by simp [lexLe] at h
  | _ :: _, _ :: _, [], _, h => by simp [lexLe] at h
  | a :: as, b :: bs, c :: cs, h1, h2 => by
    unfold lexLe at h1 h2 ⊢
    rcases lt_trichotomy a b with hab | hab | hab
    · rcases lt_trichotomy b c with hbc | hbc | hbc
      · simp [lt_trans hab hbc]
      · subst hbc; simp [hab]
      · rw [if_neg (asymm hbc), if_pos hbc] at h2; cases h2
    · subst hab
      rcases lt_trichotomy a c with hbc | hbc | hbc
      · simp [hbc]
      · subst hbc
        rw [if_neg (lt_irrefl a), if_neg (lt_irrefl a)] at h1 h2 ⊢
        exact lexLe_trans as bs cs h1 h2
      · rw [if_neg (asymm hbc), if_pos hbc] at h2; cases h2
    · rw [if_neg (asymm hab), if_pos hab] at h1; cases h1

instance : IsTotal (List Char × List Char) attrLe :=
  ⟨fun a b => lexLe_total a.1 b.1⟩

instance : IsTrans (List Char × List Char) attrLe :=
  ⟨fun _ _ _ h1 h2 => lexLe_trans _ _ _ h1 h2⟩

theorem setAttr_children (H : Heap) (x : Nat) (n w : List Char) (v : Nat) :
    (getE (setAttr H x n w).1 v).children = (getE H v).children := by
  unfold setAttr
  by_cases h1 : validateToken n = true
  · by_cases h2 : validateText w = true
    · simp only [h1, h2, Bool.not_true, Bool.false_eq_true, if_false]
      exact getE_setE_proj ElemData.children H x v
        { getE H x with attributes := setAttr.putAttr (getE H x).attributes n w }
        rfl
    · simp [h1, h2]
  · simp [h1]

theorem removeAttr_children (H : Heap) (x : Nat) (n : List Char) (v : Nat) :
    (getE (removeAttr H x n) v).children = (getE H v).children := by
  unfold removeAttr
  exact getE_setE_proj ElemData.children H x v
    { getE H x with
      attributes := (getE H x).attributes.eraseP (fun kv => kv.1 = n) } rfl

/-- Claim C1: the claim says each Element appended by a successful `append`
records the slot it actually occupies, so that `remove()` holes its own slot.
The code instead computes `parentIndex` from the children length BEFORE the
post-loop push, so in `p.append(a, b)` (ids: p = 0 div, a = 1 span,
b = 2 em) both children record position 0 while occupying slots 0 and 1;
`b.remove()` then holes slot 0 — a's slot — so afterwards the still-attached
`a` vanishes from the filtered children view while the detached `b` remains. -/
theorem C1_parentIndex_prepush_evidence :
    (appendOp divSpanEmHeap 0 [Arg.elem 1, Arg.elem 2]).2 = none ∧
    (getE divSpanEmAppended 0).children = [Entry.elem 1, Entry.elem 2] ∧
    (getE divSpanEmAppended 1).parent = some (0, 0) ∧
    (getE divSpanEmAppended 2).parent = some (0, 0) ∧
    childrenView divSpanEmRemoved 0 = [Entry.elem 2] ∧
    (getE divSpanEmRemoved 1).parent = some (0, 0) ∧
    (getE divSpanEmRemoved 2).parent = none := by decide

/-- Claim C2: the claim (and spec) describe the Text grammar as accepting the
whole range U+E000–U+FFFD.  The source regex lists `\u{e000}` and `\u{fffd}`
as two individual characters (the range hyphen is missing), so the embedded
`validateText` accepts the endpoints but rejects U+E001, which the spec's
character set (`specTextChar`) contains. -/
theorem C2_text_grammar_range_gap :
    validateText [] = true ∧
    validateText [Char.ofNat 0xE000] = true ∧
    validateText [Char.ofNat 0xFFFD] = true ∧
    specTextChar (Char.ofNat 0xE001) = true ∧
    validateText [Char.ofNat 0xE001] = false := by decide

/-- Claim C4: `append` is atomic — whenever it throws any error, the returned
heap is exactly the input heap: the receiver's children and every argument's
parent link are unchanged, because all validation precedes all mutation. -/
theorem C4_append_atomic (H : Heap) (self : Nat) (args : List Arg) (e : JsErr)
    (h : (appendOp H self args).2 = some e) :
    (appendOp H self args).1 = H :=
  appendOp_err_unchanged H self args (by rw [h]; rfl)

theorem C4_append_atomic_witness :
    (appendOp brHeap 0 [Arg.text (str ("x"))]).1 = brHeap :=
  C4_append_atomic brHeap 0 [Arg.text (str ("x"))] JsErr.voidElement (by decide)

/-- Claim C6: `outerHTML` serializes `<` + realName, each attribute sorted by
name in ascending code-point order as tab + name + `='` + escaped value +
`'`, then `/>` for void elements or `>` + innerHTML + `</` + realName + `>`;
concretely the `div` with `data-x = "a'b\"c<d>e&f"` serializes to the claimed
string, a `br` serializes as `<br/>`, and the attribute ordering used is
sorted (and a permutation of the stored attributes). -/
theorem C6_outerHTML_format :
    outerHTML divDataXHeap 0 =
      str ("<div\tdata-x='a&apos;b&quot;c&lt;d&gt;e&amp;f'></div>") ∧
    outerHTML brHeap 0 = str ("<br/>") ∧
    (∀ l : List (List Char × List Char), List.Sorted attrLe (sortAttrs l)) ∧
    (∀ l : List (List Char × List Char), (sortAttrs l).Perm l) := by
  refine ⟨by decide, by decide, ?_, ?_⟩
  · intro l
    exact List.sorted_insertionSort attrLe l
  · intro l
    exact List.perm_insertionSort attrLe l

/-- Claim C7: for every string satisfying the Text grammar, `escapeText`
performs the five ordered entity substitutions without throwing, the inverse
substitution recovers the original string, and the escape is injective. -/
theorem C7_escape_roundtrip (s : List Char) (h : validateText s = true) :
    escapeText s = Except.ok (escapeRaw s) ∧
    unescape (escapeRaw s) = s ∧
    (∀ t : List Char, escapeRaw t = escapeRaw s → t = s) := by
  refine ⟨?_, unescape_escapeRaw s, ?_⟩
  · unfold escapeText
    rw [h]
    rfl
  · intro t ht
    exact escapeRaw_injective t s ht

theorem C7_escape_roundtrip_witness :
    escapeText (str ("a<b&c''d\"e>f")) =
      Except.ok (escapeRaw (str ("a<b&c''d\"e>f"))) ∧
    unescape (escapeRaw (str ("a<b&c''d\"e>f"))) = str ("a<b&c''d\"e>f") ∧
    (∀ t : List Char, escapeRaw t = escapeRaw (str ("a<b&c''d\"e>f")) →
      t = str ("a<b&c''d\"e>f")) :=
  C7_escape_roundtrip (str ("a<b&c''d\"e>f")) (by decide)

set_option maxRecDepth 8000 in
set_option maxHeartbeats 1600000 in
/-- Claim C9: the serialized fresh Document starts with the exact doctype
prefix, contains exactly one `<head>` and one `<body>` (counting open and
close tags), the head's contents are exactly the fixed charset meta element
followed by an empty title, and the body is empty. -/
theorem C9_document_skeleton :
    (docToString newDocument).take 15 = str ("<!DOCTYPE\thtml>") ∧
    countSubstr (str ("<head>")) (docToString newDocument) = 1 ∧
    countSubstr (str ("</head>")) (docToString newDocument) = 1 ∧
    countSubstr (str ("<body>")) (docToString newDocument) = 1 ∧
    countSubstr (str ("</body>")) (docToString newDocument) = 1 ∧
    innerHTML newDocument.heap newDocument.head =
      str ("<meta\tcharset='UTF-8'/><title></title>") ∧
    innerHTML newDocument.heap newDocument.body = [] := by decide

set_option maxRecDepth 8000 in
set_option maxHeartbeats 1600000 in
/-- Claim C3 (counterexample): the claim says `document.title` round-trips —
setting `"Hello & <you>"` and reading back yields the original, unescaped.
In the code the `innerText` getter passes every text child through
`Element.escapeText`, so the read-back value is the escaped form
`"Hello &amp; &lt;you&gt;"`, not the original. -/
theorem C3_title_roundtrip_counterexample :
    docTitleGet (docTitleSet newDocument (str ("Hello & <you>"))).1 =
      str ("Hello &amp; &lt;you&gt;") ∧
    docTitleGet (docTitleSet newDocument (str ("Hello & <you>"))).1 ≠
      str ("Hello & <you>") := by decide

/-- Claim C3 (amended): for every string satisfying the Text grammar, setting
`document.title` succeeds, but reading `document.title` returns the
five-entity-escaped form `escapeRaw s` of the stored text (equal to `s`
exactly when `s` contains none of the five escaped characters), not `s`
itself. -/
theorem C3_title_returns_escaped (s : List Char) (h : validateText s = true) :
    (docTitleSet newDocument s).2 = none ∧
    docTitleGet (docTitleSet newDocument s).1 = escapeRaw s := by
  have hcl : clearOp newDocument.heap 4 = newDocument.heap := by decide
  have htitle : newDocument.title = 4 := by decide
  have h0 : (getE newDocument.heap 4).void = false := by decide
  have h1 : (getE newDocument.heap 4).escapable = true := by decide
  have hch : (getE newDocument.heap 4).children = [] := by decide
  have happ := appendOp_text_ok newDocument.heap 4 s h0 h1 h
  have hset : innerTextSet newDocument.heap 4 s =
      (setE newDocument.heap 4 { getE newDocument.heap 4 with
        children := [Entry.text s] }, none) := by
    unfold innerTextSet
    rw [hcl, happ, hch]
    simp
  constructor
  · unfold docTitleSet
    rw [htitle, hset]
  · unfold docTitleSet docTitleGet
    rw [htitle, hset]
    simp only
    unfold innerText
    have hlen : (setE newDocument.heap 4 { getE newDocument.heap 4 with
        children := [Entry.text s] }).length = 5 := by
      rw [length_setE]; decide
    rw [hlen]
    have hget : getE (setE newDocument.heap 4 { getE newDocument.heap 4 with
        children := [Entry.text s] }) 4 =
        { getE newDocument.heap 4 with children := [Entry.text s] } :=
      getE_setE_self _ _ _ (by decide)
    show innerTextF (5 + 1) _ 4 = escapeRaw s
    rw [innerTextF, hget]
    simp

theorem C3_title_returns_escaped_witness :
    (docTitleSet newDocument (str ("safe title"))).2 = none ∧
    docTitleGet (docTitleSet newDocument (str ("safe title"))).1 =
      escapeRaw (str ("safe title")) :=
  C3_title_returns_escaped (str ("safe title")) (by decide)

/-- Claim C5 (counterexample): the claim says appending `e` to any element of
`e`'s own ancestor chain fails with `CyclicReferenceError`.  With
`div.append(span)` already done (div = 0 is span = 1's parent, hence in
span's ancestor chain), `div.append(span)` fails with `AlreadyChildError`
instead: the already-a-child check precedes the cyclic-reference check. -/
theorem C5_ancestor_append_counterexample :
    0 ∈ ancestorChain divWithSpanHeap 1 ∧
    (appendOp divWithSpanHeap 0 [Arg.elem 1]).2 = some JsErr.alreadyChild ∧
    (appendOp divWithSpanHeap 0 [Arg.elem 1]).2 ≠
      some JsErr.cyclicReference := by decide

/-- Claim C5 (amended): appending `e` to any element `r` of `e`'s own
ancestor chain (including `e` itself) always fails and leaves the heap
unchanged, but the error is `CyclicReferenceError` only when the earlier
guards do not fire first: a void receiver gives `VoidElementError`, a
non-escapable receiver `NotEscapableError`, an attached `e` (the case of
every strict ancestor) `AlreadyChildError`, and a raw-text receiver
`RawTextChildError`; only a detached `e` — forcing `r = e` — reaches the
cyclic check. -/
theorem C5_ancestor_append_fails (H : Heap) (r e : Nat)
    (hm : r ∈ ancestorChain H e) :
    (appendOp H r [Arg.elem e]).1 = H ∧
    (appendOp H r [Arg.elem e]).2 = some (
      if (getE H r).void = true then JsErr.voidElement
      else if (getE H r).escapable = false then JsErr.notEscapable
      else if (parentElement H e).isSome = true then JsErr.alreadyChild
      else if (getE H r).raw = true then JsErr.rawTextChild
      else JsErr.cyclicReference) := by
  by_cases h1 : (getE H r).void = true
  · rw [appendOp_void H r _ h1]
    simp [h1]
  · by_cases h2 : (getE H r).escapable = true
    · cases hpe : (getE H e).parent with
      | some pi =>
        have hp : parentElement H e = some pi.1 := by
          simp [parentElement, hpe]
        constructor <;>
          · unfold appendOp
            simp [h1, h2, validateArgs, validateArg, hp]
      | none =>
        have hp : parentElement H e = none := by
          simp [parentElement, hpe]
        have hre : r = e := by
          unfold ancestorChain chainFrom at hm
          rw [hp] at hm
          simpa using hm
        subst hre
        have hcyc : hasAncestor H r (H.length + 2) r = true := by
          show hasAncestor H r (H.length + 1 + 1) r = true
          simp [hasAncestor]
        by_cases h3 : (getE H r).raw = true
        · constructor <;>
            · unfold appendOp
              simp [h1, h2, h3, validateArgs, validateArg, hp]
        · constructor <;>
            · unfold appendOp
              simp [h1, h2, h3, validateArgs, validateArg, hp, hcyc]
    · constructor <;>
        · unfold appendOp
          simp [h1, h2]

theorem C5_ancestor_append_fails_witness :
    (appendOp lonelyDivHeap 0 [Arg.elem 0]).1 = lonelyDivHeap ∧
    (appendOp lonelyDivHeap 0 [Arg.elem 0]).2 =
      some JsErr.cyclicReference := by
  have h := C5_ancestor_append_fails lonelyDivHeap 0 0 (by decide)
  refine ⟨h.1, ?_⟩
  rw [h.2]
  decide

/-- Claim C8: an element whose lowercased name is in the void set has an
empty children array at construction, any `append` on it fails with
`VoidElementError` leaving the heap untouched, and an empty children array
of a void element is preserved by every mutating operation of the model
(allocation, `append` with any receiver, `remove`, `clear`, `setAttribute`,
`removeAttribute`, and the `innerText` setter). -/
theorem C8_void_children_invariant (v : Nat) :
    (∀ (H : Heap) (t : List Char) (H2 : Heap) (i : Nat),
      elementNew H t = Except.ok (H2, i) → (getE H2 i).children = []) ∧
    (∀ (H : Heap) (args : List Arg), (getE H v).void = true →
      appendOp H v args = (H, some JsErr.voidElement)) ∧
    (∀ (H : Heap) (t : List Char) (H2 : Heap) (i : Nat),
      (getE H v).children = [] → elementNew H t = Except.ok (H2, i) →
      (getE H2 v).children = []) ∧
    (∀ (H : Heap) (r : Nat) (args : List Arg), (getE H v).void = true →
      (getE H v).children = [] →
      (getE (appendOp H r args).1 v).children = []) ∧
    (∀ (H : Heap) (x : Nat), (getE H v).children = [] →
      (getE (removeOp H x) v).children = []) ∧
    (∀ (H : Heap) (x : Nat), (getE H v).children = [] →
      (getE (clearOp H x) v).children = []) ∧
    (∀ (H : Heap) (x : Nat) (n w : List Char), (getE H v).children = [] →
      (getE (setAttr H x n w).1 v).children = []) ∧
    (∀ (H : Heap) (x : Nat) (n : List Char), (getE H v).children = [] →
      (getE (removeAttr H x n) v).children = []) ∧
    (∀ (H : Heap) (x : Nat) (s : List Char), (getE H v).void = true →
      (getE H v).children = [] →
      (getE (innerTextSet H x s).1 v).children = []) := by
  have happend : ∀ (H : Heap) (r : Nat) (args : List Arg),
      (getE H v).void = true → (getE H v).children = [] →
      (getE (appendOp H r args).1 v).children = [] := by
    intro H r args hvoid hch
    by_cases hrv : r = v
    · subst hrv
      rw [appendOp_void H r args hvoid]
      exact hch
    · rw [appendOp_children_ne H r args v hrv]
      exact hch
  refine ⟨fun H t H2 i h => elementNew_children H t H2 i h,
    fun H args h => appendOp_void H v args h,
    fun H t H2 i hch h => elementNew_children_empty H t H2 i v hch h,
    happend,
    fun H x hch => removeOp_children_empty H x v hch,
    fun H x hch => clearOp_children_empty H x v hch,
    fun H x n w hch => by rw [setAttr_children]; exact hch,
    fun H x n hch => by rw [removeAttr_children]; exact hch,
    ?_⟩
  intro H x s hvoid hch
  unfold innerTextSet
  have hcl : (getE (clearOp H x) v).children = [] :=
    clearOp_children_empty H x v hch
  have hclv : (getE (clearOp H x) v).void = (getE H v).void :=
    clearOp_proj ElemData.void (fun _ _ => rfl) (fun _ => rfl) H x v
  exact happend (clearOp H x) x [Arg.text s] (by rw [hclv]; exact hvoid) hcl

theorem C8_void_children_invariant_witness :
    appendOp brHeap 0 [Arg.text (str ("x"))] =
      (brHeap, some JsErr.voidElement) ∧
    (getE (innerTextSet brHeap 0 (str ("x"))).1 0).children = [] :=
  ⟨(C8_void_children_invariant 0).2.1 brHeap [Arg.text (str ("x"))]
      (by decide),
   (C8_void_children_invariant 0).2.2.2.2.2.2.2.2 brHeap 0 (str ("x"))
      (by decide) (by decide)⟩

end VoidTemplate

